import Mathlib

/-
Verification development for the Orbit audit-log forensic validator
(scripts/verify_audit.py).  The Python source is shallowly embedded:
pure helpers become Lean functions, the per-line verification loop
becomes an explicit fold over the list of physical lines, and process
behaviour (environment, filesystem, stdout/stderr, exit code) is made
explicit as function arguments and a result record.

Library primitives that the script calls but that are not part of the
repository (CPython json.loads and the HMAC-SHA256 implementation of
hmac/hashlib) are abstracted as function parameters: every theorem is
stated for an arbitrary loader and an arbitrary keyed hash, because the
script treats them as black boxes.  json.dumps, in contrast, is modelled
concretely, because the canonicalisation contract depends on its exact
output format (compact separators, insertion order, ensure_ascii
escaping).  JSON numbers are modelled as integers; the records the
claims quantify over do not depend on float formatting.
-/

set_option autoImplicit false

namespace OrbitAudit

/-- Byte strings are lists of naturals below 256. -/
abbrev Bytes := List Nat

/-- JSON values as produced by json.loads.  Objects keep their fields in
the order the keys appeared in the source text (CPython dicts preserve
insertion order); numbers are modelled as integers. -/
inductive Json where
  | null : Json
  | bool (b : Bool) : Json
  | num (n : Int) : Json
  | str (s : String) : Json
  | arr (elems : List Json) : Json
  | obj (fields : List (String × Json)) : Json
  deriving Repr

/-- Lowercase hexadecimal digit for a value below 16. -/
def hexDigitChar (n : Nat) : Char :=
  if n < 10 then Char.ofNat (48 + n) else Char.ofNat (87 + n)

/-- Two lowercase hex digits for one byte, as bytes.hex producers emit. -/
def hexByte (b : Nat) : String :=
  String.mk [hexDigitChar (b / 16 % 16), hexDigitChar (b % 16)]

/-- Lowercase hex encoding of a byte string; models hmac digest hexdigest. -/
def hexOf (bs : Bytes) : String :=
  String.join (bs.map hexByte)

/-- Four lowercase hex digits for a 16-bit value, for backslash-u escapes. -/
def hexU4 (n : Nat) : String :=
  String.mk [hexDigitChar (n / 4096 % 16), hexDigitChar (n / 256 % 16),
    hexDigitChar (n / 16 % 16), hexDigitChar (n % 16)]

/-- Escaping of one character as json.dumps does with its default
ensure_ascii=True: quote, backslash and the short control escapes get a
backslash form, other characters outside 0x20..0x7e become
backslash-u escapes (a surrogate pair beyond 0xffff). -/
def jsonEscapeChar (c : Char) : String :=
  let n := c.toNat
  if n = 34 then String.mk [Char.ofNat 92, Char.ofNat 34]
  else if n = 92 then String.mk [Char.ofNat 92, Char.ofNat 92]
  else if n = 8 then String.mk [Char.ofNat 92, Char.ofNat 98]
  else if n = 9 then String.mk [Char.ofNat 92, Char.ofNat 116]
  else if n = 10 then String.mk [Char.ofNat 92, Char.ofNat 110]
  else if n = 12 then String.mk [Char.ofNat 92, Char.ofNat 102]
  else if n = 13 then String.mk [Char.ofNat 92, Char.ofNat 114]
  else if n < 32 then String.mk [Char.ofNat 92, Char.ofNat 117] ++ hexU4 n
  else if n ≤ 126 then String.mk [c]
  else if n ≤ 65535 then String.mk [Char.ofNat 92, Char.ofNat 117] ++ hexU4 n
  else
    let m := n - 65536
    String.mk [Char.ofNat 92, Char.ofNat 117] ++ hexU4 (55296 + m / 1024) ++
      String.mk [Char.ofNat 92, Char.ofNat 117] ++ hexU4 (56320 + m % 1024)

/-- JSON string literal serialisation: a double-quoted, escaped form. -/
def dumpString (s : String) : String :=
  String.mk [Char.ofNat 34] ++ String.join (s.data.map jsonEscapeChar) ++
    String.mk [Char.ofNat 34]

mutual

/-- Model of json.dumps with separators (Comma, Colon): compact JSON with
no inserted whitespace, object fields serialised in their stored
(insertion) order. -/
def dumps : Json → String
  | Json.null => "null"
  | Json.bool true => "true"
  | Json.bool false => "false"
  | Json.num n => toString n
  | Json.str s => dumpString s
  | Json.arr es => "[" ++ dumpsList es ++ "]"
  | Json.obj fs => "\x7b" ++ dumpsFields fs ++ "\x7d"

/-- Array elements joined by a bare comma. -/
def dumpsList : List Json → String
  | [] => ""
  | [j] => dumps j
  | j :: j2 :: rest => dumps j ++ "," ++ dumpsList (j2 :: rest)

/-- Object fields joined by a bare comma, key and value joined by a colon. -/
def dumpsFields : List (String × Json) → String
  | [] => ""
  | [(k, v)] => dumpString k ++ ":" ++ dumps v
  | (k, v) :: p :: rest => dumpString k ++ ":" ++ dumps v ++ "," ++ dumpsFields (p :: rest)

end

/-- UTF-8 encoding of one character. -/
def utf8Char (c : Char) : Bytes :=
  let n := c.toNat
  if n < 128 then [n]
  else if n < 2048 then [192 + n / 64, 128 + n % 64]
  else if n < 65536 then [224 + n / 4096, 128 + n / 64 % 64, 128 + n % 64]
  else [240 + n / 262144, 128 + n / 4096 % 64, 128 + n / 64 % 64, 128 + n % 64]

/-- UTF-8 encoding of a string; models str.encode of Python. -/
def utf8 (s : String) : Bytes :=
  s.data.foldr (fun c acc => utf8Char c ++ acc) []

/-- Python str.strip whitespace test (the ASCII whitespace characters). -/
def isPySpace (c : Char) : Bool :=
  c.toNat = 32 || c.toNat = 9 || c.toNat = 10 || c.toNat = 13 ||
    c.toNat = 11 || c.toNat = 12

/-- Model of str.strip(): remove leading and trailing whitespace. -/
def pyStrip (s : String) : String :=
  String.mk (((s.data.dropWhile isPySpace).reverse.dropWhile isPySpace).reverse)

/-- Python repr() of a string of printable characters: single-quoted
unless the string contains a single quote and no double quote, in which
case it is double-quoted; the quote character and backslashes are
escaped. -/
def pyReprStr (s : String) : String :=
  let hasSingle := s.data.any (fun c => c.toNat = 39)
  let hasDouble := s.data.any (fun c => c.toNat = 34)
  let q : Nat := if hasSingle && !hasDouble then 34 else 39
  let esc := fun (c : Char) =>
    if c.toNat = 92 then String.mk [Char.ofNat 92, Char.ofNat 92]
    else if c.toNat = q then String.mk [Char.ofNat 92, Char.ofNat q]
    else String.mk [c]
  String.mk [Char.ofNat q] ++ String.join (s.data.map esc) ++ String.mk [Char.ofNat q]

mutual

/-- Model of Python repr() on values obtained from json.loads, used when
such a value is interpolated inside a container.  Faithful for values
whose strings consist of printable characters (the only strings the
diagnostics of this script ever carry): None, True, False, decimal
integers, single-quoted strings, bracketed lists and braced dicts with
a comma-space separator and a colon-space key separator. -/
def pyRepr : Json → String
  | Json.null => "None"
  | Json.bool true => "True"
  | Json.bool false => "False"
  | Json.num n => toString n
  | Json.str s => pyReprStr s
  | Json.arr es => "[" ++ pyReprList es ++ "]"
  | Json.obj fs => "\x7b" ++ pyReprFields fs ++ "\x7d"

/-- List elements joined by a comma and a space, as Python repr does. -/
def pyReprList : List Json → String
  | [] => ""
  | [j] => pyRepr j
  | j :: j2 :: rest => pyRepr j ++ ", " ++ pyReprList (j2 :: rest)

/-- Dict entries joined by a comma and a space, key and value by a colon
and a space, keys shown with repr, as Python repr of a dict does. -/
def pyReprFields : List (String × Json) → String
  | [] => ""
  | [(k, v)] => pyReprStr k ++ ": " ++ pyRepr v
  | (k, v) :: p :: rest => pyReprStr k ++ ": " ++ pyRepr v ++ ", " ++ pyReprFields (p :: rest)

end

/-- Python str() of a value obtained from json.loads, as an f-string
interpolation applies it: like repr, except that a string at top level
is rendered without quotes. -/
def pyStr : Json → String
  | Json.str s => s
  | j => pyRepr j

/-- Model of dict.pop(key, None): the value stored under the key (none
when the key is absent) together with the remaining fields.  CPython
dicts hold each key at most once, so removing the first occurrence is
the dict behaviour. -/
def popField : List (String × Json) → String → Option Json × List (String × Json)
  | [], _ => (none, [])
  | (k, v) :: rest, key =>
    if k = key then (some v, rest)
    else
      let r := popField rest key
      (r.1, (k, v) :: r.2)

/-- Model of dict.get(key, default): the stored value, none for absent. -/
def findField (fields : List (String × Json)) (key : String) : Option Json :=
  match fields.find? (fun kv => kv.1 = key) with
  | some kv => some kv.2
  | none => none

/-- Python test for the value None: json.loads maps JSON null to None,
so a popped integrity_hash value is None exactly when it was null. -/
def isNull (v : Json) : Bool :=
  match v with
  | Json.null => true
  | _ => false

/-- Python equality between a json.loads value and a Python str: only a
string can compare equal to a string. -/
def pyEqStr (v : Json) (s : String) : Bool :=
  match v with
  | Json.str t => t == s
  | _ => false

/-- The f-string the script appends on a JSON parse failure. -/
def parseErrorMsg (ln : Nat) (msg : String) : String :=
  "Line " ++ toString ln ++ ": Invalid JSON - " ++ msg

/-- The multi-line f-string the script appends on a digest mismatch; the
sequence field is rendered with str(), N/A when absent. -/
def integrityErrorMsg (ln : Nat) (expected : String) (reported : Json)
    (seqField : Option Json) : String :=
  "Line " ++ toString ln ++ ": CRITICAL - Integrity failure\n" ++
    "  Expected: " ++ expected ++ "\n" ++
    "  Got:      " ++ pyStr reported ++ "\n" ++
    "  Sequence: " ++ (match seqField with | some j => pyStr j | none => "N/A")

/-- Signature of the abstracted hmac.new(secret, data, sha256).digest(). -/
abbrev HmacFn := Bytes → Bytes → Bytes

/-- Signature of the abstracted json.loads: parser message on failure. -/
abbrev LoadsFn := String → Except String Json

/-- The mutable state of the verification loop: the running chain hash
and the accumulated error strings, in file order. -/
structure ScanState where
  chain : Bytes
  errors : List String
  deriving Repr, DecidableEq

/-- One iteration of the loop body of verify_audit_log for the physical
line numbered ln: strip, skip blank lines, parse, pop integrity_hash,
skip legacy records (absent field or None value), canonicalise, compute
the keyed digest over chain plus canonical bytes, then either advance
the chain (match) or append a diagnostic and keep the stale chain
(mismatch).  A parsed value that is not a dict makes the Python code
call pop on a non-dict, raising an uncaught exception: that is the
error case of the result. -/
def processLine (hm : HmacFn) (secret : Bytes) (loads : LoadsFn)
    (st : ScanState) (ln : Nat) (rawLine : String) : Except String ScanState :=
  let line := pyStrip rawLine
  if line = "" then Except.ok st
  else
    match loads line with
    | Except.error e =>
      Except.ok { st with errors := st.errors ++ [parseErrorMsg ln e] }
    | Except.ok record =>
      match record with
      | Json.obj fields =>
        let popped := popField fields "integrity_hash"
        match popped.1 with
        | none => Except.ok st
        | some reported =>
          if isNull reported then Except.ok st
          else
          let canonicalJson := dumps (Json.obj popped.2)
          let canonicalBytes := utf8 canonicalJson
          let dataToSign := st.chain ++ canonicalBytes
          let digest := hm secret dataToSign
          let calculatedHash := hexOf digest
          if pyEqStr reported calculatedHash then
            Except.ok { st with chain := digest }
          else
            Except.ok { st with errors := st.errors ++
              [integrityErrorMsg ln calculatedHash reported
                (findField popped.2 "sequence")] }
      | _ => Except.error "uncaught exception: pop called on a non-dict record"

/-- The whole line loop: line numbers are 1-indexed physical positions,
counted for every line including blank ones; returns the final state and
the final line counter, or the message of an uncaught exception. -/
def runLines (hm : HmacFn) (secret : Bytes) (loads : LoadsFn) :
    ScanState → Nat → List String → Except String (ScanState × Nat)
  | st, ln, [] => Except.ok (st, ln)
  | st, ln, l :: rest =>
    match processLine hm secret loads st (ln + 1) l with
    | Except.error e => Except.error e
    | Except.ok st2 => runLines hm secret loads st2 (ln + 1) rest

/-- Outcome of verify_audit_log at process level: fatal is the except
branch that prints and calls sys.exit(1); crash is an exception the
function does not catch; done carries the returned triple. -/
inductive RunOutcome where
  | fatal (out : List String) : RunOutcome
  | crash (msg : String) : RunOutcome
  | done (valid : Bool) (total : Nat) (errors : List String) : RunOutcome
  deriving Repr, DecidableEq

/-- The initial chain state: bytes([0] * 32). -/
def initialChain : Bytes := List.replicate 32 0

/-- Result of opening and reading a file: FileNotFoundError, an IOError
raised while opening or reading (carrying str(e)), or the file content
as a list of physical lines. -/
inductive FileAccess where
  | missing : FileAccess
  | unreadable (msg : String) : FileAccess
  | content (lines : List String) : FileAccess
  deriving Repr, DecidableEq

/-- Model of verify_audit_log: the filesystem is a map from paths to
FileAccess outcomes.  The try block around the whole loop catches
FileNotFoundError and IOError and in both cases prints one line and
exits 1, discarding any partial state, so an IOError is modelled at the
point of access.  Returns (len(errors) == 0, line_number, errors). -/
def verify_audit_log (hm : HmacFn) (secret : Bytes) (loads : LoadsFn)
    (filePath : String) (fs : String → FileAccess) : RunOutcome :=
  match fs filePath with
  | FileAccess.missing => RunOutcome.fatal ["ERROR: File not found: " ++ filePath]
  | FileAccess.unreadable e => RunOutcome.fatal ["ERROR: Failed to read file: " ++ e]
  | FileAccess.content ls =>
    match runLines hm secret loads { chain := initialChain, errors := [] } 0 ls with
    | Except.error m => RunOutcome.crash m
    | Except.ok (st, n) => RunOutcome.done st.errors.isEmpty n st.errors

/-- Model of load_secret: reads ORBIT_AUDIT_SECRET with default empty
string; an unset or empty value prints two lines and exits 1 (the error
case carries the printed lines); otherwise the UTF-8 bytes of the value
are the key. -/
def load_secret (env : Option String) : Except (List String) Bytes :=
  let secret := env.getD ""
  if secret = "" then
    Except.error ["ERROR: ORBIT_AUDIT_SECRET environment variable not set",
      "Set it with: export ORBIT_AUDIT_SECRET=\x27your_secret_key\x27"]
  else Except.ok (utf8 secret)

/-- A line of 70 equals signs. -/
def sep70 : String := String.mk (List.replicate 70 (Char.ofNat 61))

/-- A line of 70 dashes. -/
def dash70 : String := String.mk (List.replicate 70 (Char.ofNat 45))

/-- Model of print_report: the list of lines printed to stdout, in
order; each print() call contributes one entry. -/
def print_report (isValid : Bool) (total : Nat) (errors : List String) :
    List String :=
  [sep70, "Orbit Audit Log Forensic Validation Report", sep70, ""] ++
    (if isValid then
      ["[PASS] STATUS: VALID",
       "[PASS] All " ++ toString total ++ " audit records verified",
       "[PASS] No tampering detected",
       "[PASS] Chain integrity intact",
       "",
       "The audit log has cryptographic integrity and can be trusted."]
    else
      ["[FAIL] STATUS: INVALID",
       "[FAIL] Found " ++ toString errors.length ++ " integrity failure(s) in " ++
         toString total ++ " records",
       "",
       "CRITICAL: The audit log has been tampered with or is corrupted!",
       "",
       "Failures detected:",
       dash70] ++
      errors.foldr (fun e acc => e :: dash70 :: acc) [] ++
      ["",
       "RECOMMENDATIONS:",
       "1. DO NOT trust this audit log for compliance purposes",
       "2. Investigate the source of tampering",
       "3. Restore from backup if available",
       "4. Review access logs to identify who modified the file"]) ++
    ["", sep70]

/-- The two standard output channels of the process. -/
inductive Chan where
  | stdout : Chan
  | stderr : Chan
  deriving Repr, DecidableEq

/-- Exit code and the ordered output of the process. -/
structure ProcResult where
  exit : Nat
  out : List (Chan × String)
  deriving Repr, DecidableEq

/-- Tag a list of printed lines as stdout output, as print() emits. -/
def stdoutAll (ls : List String) : List (Chan × String) :=
  ls.map (fun s => (Chan.stdout, s))

/-- Model of main: argument check, load_secret, the validating banner,
verify_audit_log, print_report, exit code.  Every print() in the script
writes to stdout; an uncaught exception is rendered by the interpreter
on stderr with exit code 1. -/
def main (argv : List String) (env : Option String)
    (fs : String → FileAccess) (hm : HmacFn) (loads : LoadsFn) :
    ProcResult :=
  match argv with
  | _ :: auditFile :: _ =>
    (match load_secret env with
    | Except.error msgs => { exit := 1, out := stdoutAll msgs }
    | Except.ok secret =>
      let pre := stdoutAll ["Validating audit log: " ++ auditFile, ""]
      match verify_audit_log hm secret loads auditFile fs with
      | RunOutcome.fatal msgs => { exit := 1, out := pre ++ stdoutAll msgs }
      | RunOutcome.crash m => { exit := 1, out := pre ++ [(Chan.stderr, m)] }
      | RunOutcome.done v n errs =>
        { exit := if v then 0 else 1,
          out := pre ++ stdoutAll (print_report v n errs) })
  | _ =>
    { exit := 1,
      out := stdoutAll ["Usage: verify_audit.py <path_to_audit.jsonl>", "",
        "Example:",
        "  export ORBIT_AUDIT_SECRET=\x27my_secret_key\x27",
        "  python3 verify_audit.py /var/log/orbit/audit.jsonl"] }

/-! Concrete instances for witnesses and counterexamples.  The loader
below agrees with CPython json.loads on each of the finitely many
inputs it is applied to in this development; the constant hash stands
in for the abstracted HMAC-SHA256 (every theorem quantifies over the
hash, so any concrete function may instantiate it). -/

/-- A degenerate keyed hash returning 32 zero bytes, used to instantiate
the abstract HMAC parameter in witnesses. -/
def hm0 : HmacFn := fun _ _ => List.replicate 32 0

/-- Sixty-four zero characters: the lowercase hex form of hm0 output. -/
def zeros64 : String := String.mk (List.replicate 64 (Char.ofNat 48))

/-- A log line holding a signed record (integrity_hash present). -/
def rawSigned : String :=
  "\x7b\"a\":1,\"integrity_hash\":\"" ++ zeros64 ++ "\"\x7d"

/-- A log line holding a legacy record (no integrity_hash field). -/
def rawLegacy : String := "\x7b\"a\":1\x7d"

/-- A log line holding a record whose integrity_hash is JSON null. -/
def rawNullHash : String := "\x7b\"integrity_hash\":null,\"a\":2\x7d"

/-- A log line holding valid JSON that is not an object. -/
def rawArr : String := "[1,2]"

/-- A demonstration loader: on each of the four line texts above it
returns exactly the value CPython json.loads returns for that text
(fields in source order), and on every other input it fails with the
message json.loads raises on non-JSON text. -/
def loadsPy : LoadsFn := fun s =>
  if s = rawLegacy then Except.ok (Json.obj [("a", Json.num 1)])
  else if s = rawSigned then
    Except.ok (Json.obj [("a", Json.num 1), ("integrity_hash", Json.str zeros64)])
  else if s = rawNullHash then
    Except.ok (Json.obj [("integrity_hash", Json.null), ("a", Json.num 2)])
  else if s = rawArr then Except.ok (Json.arr [Json.num 1, Json.num 2])
  else Except.error "Expecting value: line 1 column 1 (char 0)"

/-- A demonstration secret key. -/
def secret0 : Bytes := utf8 "k"


/-- Canonical byte sequence as the specification words it, for the
refinement claim about canonicalisation: remove the integrity_hash
field, serialise the remaining fields as compact JSON joined by commas
with a colon between key and value, in the original insertion order,
and encode as UTF-8. -/
def spec_canonical_bytes (fields : List (String × Json)) : Bytes :=
  utf8 ("\x7b" ++ String.intercalate ","
    ((fields.filter (fun kv => !(kv.1 == "integrity_hash"))).map
      (fun kv => dumpString kv.1 ++ ":" ++ dumps kv.2)) ++ "\x7d")

/-! Helper lemmas shared by the claim theorems below. -/

/-- The parse-failure message splits as a line label and a tail. -/
theorem parseErrorMsg_split (ln : Nat) (e : String) :
    parseErrorMsg ln e = "Line " ++ toString ln ++ ": " ++ ("Invalid JSON - " ++ e) := by
  simp only [parseErrorMsg, String.append_assoc,
    show (": Invalid JSON - " : String) = ": " ++ "Invalid JSON - " from rfl]

/-- The mismatch message splits as a line label and a tail. -/
theorem integrityErrorMsg_split (ln : Nat) (x : String) (j : Json) (sq : Option Json) :
    integrityErrorMsg ln x j sq = "Line " ++ toString ln ++ ": " ++
      ("CRITICAL - Integrity failure\n" ++ "  Expected: " ++ x ++ "\n" ++
        "  Got:      " ++ pyStr j ++ "\n" ++ "  Sequence: " ++
        (match sq with | some v => pyStr v | none => "N/A")) := by
  simp only [integrityErrorMsg, String.append_assoc,
    show (": CRITICAL - Integrity failure\n" : String) = ": " ++ "CRITICAL - Integrity failure\n" from rfl]

/-- A blank line is skipped with the state untouched. -/
theorem processLine_blank (hm : HmacFn) (secret : Bytes) (loads : LoadsFn)
    (st : ScanState) (ln : Nat) (raw : String) (h : pyStrip raw = "") :
    processLine hm secret loads st ln raw = Except.ok st := by
  simp [processLine, h]

/-- Any completed step leaves the error list unchanged or appends one
message labelled with the physical line number it was given. -/
theorem processLine_shape (hm : HmacFn) (secret : Bytes) (loads : LoadsFn)
    (st : ScanState) (ln : Nat) (raw : String) (st2 : ScanState)
    (h : processLine hm secret loads st ln raw = Except.ok st2) :
    st2.errors = st.errors ∨
      ∃ t, st2.errors = st.errors ++ ["Line " ++ toString ln ++ ": " ++ t] := by
  simp only [processLine] at h
  split at h
  · injection h with h; subst h; exact Or.inl rfl
  · split at h
    · injection h with h; subst h
      exact Or.inr ⟨_, by rw [parseErrorMsg_split]⟩
    · split at h
      · split at h
        · injection h with h; subst h; exact Or.inl rfl
        · split at h
          · injection h with h; subst h; exact Or.inl rfl
          · split at h
            · injection h with h; subst h; exact Or.inl rfl
            · injection h with h; subst h
              exact Or.inr ⟨_, by rw [integrityErrorMsg_split]⟩
      · exact absurd h (by simp)

/-- A step that appended no diagnostic behaves identically for any
claimed line number: the number is only used inside messages. -/
theorem processLine_ln_irrel (hm : HmacFn) (secret : Bytes) (loads : LoadsFn)
    (st : ScanState) (ln : Nat) (raw : String) (st2 : ScanState)
    (h : processLine hm secret loads st ln raw = Except.ok st2)
    (herr : st2.errors = st.errors) (k : Nat) :
    processLine hm secret loads st k raw = Except.ok st2 := by
  by_cases hb : pyStrip raw = ""
  · rw [processLine_blank hm secret loads st ln raw hb] at h
    injection h with h
    rw [processLine_blank hm secret loads st k raw hb, h]
  · cases hl : loads (pyStrip raw) with
    | error e =>
      simp only [processLine, hb, if_false, hl, if_neg] at h
      injection h with h
      rw [← h] at herr
      have := congrArg List.length herr
      simp at this
    | ok record =>
      cases record with
      | obj fields =>
        cases hp : (popField fields "integrity_hash").1 with
        | none =>
          simp only [processLine, hb, if_neg, hl, hp] at h ⊢
          exact h
        | some rep =>
          cases hn : isNull rep with
          | true =>
            simp only [processLine, hb, if_neg, hl, hp, hn] at h ⊢
            simp only [if_true] at h ⊢
            exact h
          | false =>
            cases hc : pyEqStr rep (hexOf (hm secret
                (st.chain ++ utf8 (dumps (Json.obj (popField fields "integrity_hash").2))))) with
            | true =>
              simp only [processLine, hb, if_neg, hl, hp, hn, hc] at h ⊢
              simp only [if_true, if_false, Bool.false_eq_true] at h ⊢
              exact h
            | false =>
              simp only [processLine, hb, if_neg, hl, hp, hn, hc,
                Bool.false_eq_true, if_false] at h
              injection h with h
              rw [← h] at herr
              have := congrArg List.length herr
              simp at this
      | null => simp [processLine, hb, hl] at h
      | bool b => simp [processLine, hb, hl] at h
      | num n => simp [processLine, hb, hl] at h
      | str s => simp [processLine, hb, hl] at h
      | arr es => simp [processLine, hb, hl] at h

/-- The final line counter is the starting counter plus the number of
physical lines, blank and malformed lines included. -/
theorem runLines_count (hm : HmacFn) (secret : Bytes) (loads : LoadsFn)
    (ls : List String) (st : ScanState) (ln : Nat) (st2 : ScanState) (n : Nat)
    (h : runLines hm secret loads st ln ls = Except.ok (st2, n)) :
    n = ln + ls.length := by
  induction ls generalizing st ln with
  | nil =>
    simp only [runLines, Except.ok.injEq, Prod.mk.injEq] at h
    simp [← h.2]
  | cons l rest ih =>
    simp only [runLines] at h
    cases hpl : processLine hm secret loads st (ln + 1) l with
    | error e => rw [hpl] at h; exact absurd h (by simp)
    | ok stm =>
      rw [hpl] at h
      have := ih stm (ln + 1) h
      simp only [List.length_cons]
      omega

/-- Splitting the loop over a concatenation of line lists. -/
theorem runLines_append (hm : HmacFn) (secret : Bytes) (loads : LoadsFn)
    (xs ys : List String) (st : ScanState) (ln : Nat) :
    runLines hm secret loads st ln (xs ++ ys) =
      match runLines hm secret loads st ln xs with
      | Except.error e => Except.error e
      | Except.ok (st1, n1) => runLines hm secret loads st1 n1 ys := by
  induction xs generalizing st ln with
  | nil => simp [runLines]
  | cons l rest ih =>
    simp only [List.cons_append, runLines]
    cases processLine hm secret loads st (ln + 1) l <;> simp [ih]

/-- The loop only ever appends to the error list. -/
theorem runLines_errors_mono (hm : HmacFn) (secret : Bytes) (loads : LoadsFn)
    (ls : List String) (st : ScanState) (ln : Nat) (st2 : ScanState) (n : Nat)
    (h : runLines hm secret loads st ln ls = Except.ok (st2, n)) :
    ∃ sfx, st2.errors = st.errors ++ sfx := by
  induction ls generalizing st ln with
  | nil =>
    simp only [runLines, Except.ok.injEq, Prod.mk.injEq] at h
    exact ⟨[], by simp [← h.1]⟩
  | cons l rest ih =>
    simp only [runLines] at h
    cases hpl : processLine hm secret loads st (ln + 1) l with
    | error e => rw [hpl] at h; exact absurd h (by simp)
    | ok stm =>
      rw [hpl] at h
      obtain ⟨s2, hs2⟩ := ih stm (ln + 1) h
      rcases processLine_shape hm secret loads st (ln + 1) l stm hpl with h1 | ⟨t, h1⟩
      · exact ⟨s2, by rw [hs2, h1]⟩
      · exact ⟨("Line " ++ toString (ln + 1) ++ ": " ++ t) :: s2,
          by rw [hs2, h1]; simp⟩

/-- A loop run that produced no diagnostics is insensitive to the
starting line counter. -/
theorem runLines_ln_irrel (hm : HmacFn) (secret : Bytes) (loads : LoadsFn)
    (ls : List String) (st : ScanState) (ln : Nat) (st2 : ScanState) (n : Nat)
    (h : runLines hm secret loads st ln ls = Except.ok (st2, n))
    (herr : st2.errors = st.errors) (k : Nat) :
    runLines hm secret loads st k ls = Except.ok (st2, k + ls.length) := by
  induction ls generalizing st ln k with
  | nil =>
    simp only [runLines, Except.ok.injEq, Prod.mk.injEq] at h ⊢
    simp [← h.1]
  | cons l rest ih =>
    simp only [runLines] at h ⊢
    cases hpl : processLine hm secret loads st (ln + 1) l with
    | error e => rw [hpl] at h; exact absurd h (by simp)
    | ok stm =>
      rw [hpl] at h
      obtain ⟨s2, hs2⟩ := runLines_errors_mono hm secret loads rest stm (ln + 1) st2 n h
      rcases processLine_shape hm secret loads st (ln + 1) l stm hpl with h1 | ⟨t, h1⟩
      · have hst : stm.errors = st.errors := h1
        have h2 : st2.errors = stm.errors := by
          rw [hs2, hst] at herr
          have hlen := congrArg List.length herr
          simp only [List.length_append] at hlen
          have : s2 = [] := by
            cases s2 with
            | nil => rfl
            | cons a b => simp only [List.length_cons] at hlen; omega
          rw [hs2, this]
          simp
        have hplk := processLine_ln_irrel hm secret loads st (ln + 1) l stm hpl hst (k + 1)
        rw [hplk]
        show runLines hm secret loads stm (k + 1) rest = Except.ok (st2, k + (l :: rest).length)
        rw [ih stm (ln + 1) h h2 (k + 1)]
        simp only [Except.ok.injEq, Prod.mk.injEq, List.length_cons, true_and]
        omega
      · exfalso
        rw [hs2, h1] at herr
        have hlen := congrArg List.length herr
        simp only [List.length_append, List.length_cons, List.length_nil] at hlen
        omega

/-- Unfolding of the field lookup over a cons cell. -/
theorem findField_cons (k : String) (v : Json) (rest : List (String × Json))
    (key : String) :
    findField ((k, v) :: rest) key = if k = key then some v else findField rest key := by
  by_cases hk : k = key <;> simp [findField, List.find?_cons, hk]

/-- dict.pop finds no value exactly when dict.get finds none. -/
theorem popField_fst_none_iff (fields : List (String × Json)) (key : String) :
    (popField fields key).1 = none ↔ findField fields key = none := by
  induction fields with
  | nil => simp [popField, findField]
  | cons kv rest ih =>
    obtain ⟨k, v⟩ := kv
    by_cases hk : k = key <;> simp [popField, findField_cons, hk, ih]

/-- On a duplicate-free key list (the dict invariant), removing the
first occurrence of a key is removing every occurrence. -/
theorem popField_snd_of_nodup (fields : List (String × Json)) (key : String)
    (hnd : (fields.map Prod.fst).Nodup) :
    (popField fields key).2 = fields.filter (fun kv => !(kv.1 == key)) := by
  induction fields with
  | nil => simp [popField]
  | cons kv rest ih =>
    obtain ⟨k, v⟩ := kv
    simp only [List.map_cons, List.nodup_cons] at hnd
    by_cases hk : k = key
    · subst hk
      simp only [popField, if_pos rfl, List.filter_cons]
      have : (!(k == k)) = false := by simp
      rw [this]
      simp only [Bool.false_eq_true, if_false]
      have hall : ∀ kv2 ∈ rest, (!(kv2.1 == k)) = true := by
        intro kv2 hmem
        have : kv2.1 ∈ rest.map Prod.fst := List.mem_map_of_mem Prod.fst hmem
        have hne : kv2.1 ≠ k := by
          intro hcontra
          exact hnd.1 (hcontra ▸ this)
        simp [hne]
      exact (List.filter_eq_self.mpr hall).symm
    · simp only [popField, if_neg hk, List.filter_cons]
      have : (!(k == key)) = true := by simp [hk]
      rw [this]
      simp only [if_true]
      rw [ih hnd.2]

/-- Appending on the left inside the intercalate accumulator. -/
theorem intercalate_go_append (x y s : String) (l : List String) :
    String.intercalate.go (x ++ y) s l = x ++ String.intercalate.go y s l := by
  induction l generalizing y with
  | nil => rfl
  | cons a as ih =>
    show String.intercalate.go (x ++ y ++ s ++ a) s as =
      x ++ String.intercalate.go (y ++ s ++ a) s as
    rw [String.append_assoc x y s, String.append_assoc x (y ++ s) a]
    exact ih (y ++ s ++ a)

/-- Unfolding of intercalate over at least two elements. -/
theorem intercalate_cons_cons (s a b : String) (l : List String) :
    String.intercalate s (a :: b :: l) = a ++ s ++ String.intercalate s (b :: l) := by
  show String.intercalate.go a s (b :: l) = a ++ s ++ String.intercalate.go b s l
  show String.intercalate.go (a ++ s ++ b) s l = a ++ s ++ String.intercalate.go b s l
  exact intercalate_go_append (a ++ s) b s l

/-- The object-field serialiser is a comma intercalation of the
colon-joined key-value serialisations, in list order. -/
theorem dumpsFields_intercalate (fs : List (String × Json)) :
    dumpsFields fs = String.intercalate ","
      (fs.map (fun kv => dumpString kv.1 ++ ":" ++ dumps kv.2)) := by
  induction fs with
  | nil => rfl
  | cons kv rest ih =>
    cases rest with
    | nil => rfl
    | cons kv2 rest2 =>
      obtain ⟨k, v⟩ := kv
      rw [show dumpsFields ((k, v) :: kv2 :: rest2) =
        dumpString k ++ ":" ++ dumps v ++ "," ++ dumpsFields (kv2 :: rest2) from rfl]
      rw [ih]
      simp only [List.map_cons]
      rw [intercalate_cons_cons]

/-! Claim theorems. -/

/-- C1: For a signed record (integrity_hash present and non-null), the
step completes without exception, and the chain state after the step is
the raw 32-byte keyed digest of the prior chain state followed by the
canonical bytes exactly when the reported hash compares equal to the
computed lowercase hex digest (with no diagnostic emitted); when the
comparison fails, the chain state carried into the next record is
exactly the chain state from before the record. -/
theorem C1_chain_state_update (hm : HmacFn) (secret : Bytes) (loads : LoadsFn)
    (st : ScanState) (ln : Nat) (raw : String)
    (fields rest : List (String × Json)) (rep : Json)
    (hblank : pyStrip raw ≠ "")
    (hload : loads (pyStrip raw) = Except.ok (Json.obj fields))
    (hpop : popField fields "integrity_hash" = (some rep, rest))
    (hnn : isNull rep = false)
    (h32 : ∀ k m, (hm k m).length = 32) :
    ∃ st2, processLine hm secret loads st ln raw = Except.ok st2 ∧
      (hm secret (st.chain ++ utf8 (dumps (Json.obj rest)))).length = 32 ∧
      (pyEqStr rep (hexOf (hm secret (st.chain ++ utf8 (dumps (Json.obj rest))))) = true →
        st2.chain = hm secret (st.chain ++ utf8 (dumps (Json.obj rest))) ∧
        st2.errors = st.errors) ∧
      (pyEqStr rep (hexOf (hm secret (st.chain ++ utf8 (dumps (Json.obj rest))))) = false →
        st2.chain = st.chain) := by
  cases hc : pyEqStr rep (hexOf (hm secret (st.chain ++ utf8 (dumps (Json.obj rest))))) with
  | true =>
    refine ⟨{ st with chain := hm secret (st.chain ++ utf8 (dumps (Json.obj rest))) }, ?_, h32 _ _, ?_, ?_⟩
    · simp only [processLine, hblank, if_neg, hload, hpop, hnn, hc]
      simp
    · intro _; exact ⟨rfl, rfl⟩
    · intro hcontra; exact absurd hcontra (by simp)
  | false =>
    refine ⟨{ st with errors := st.errors ++
      [integrityErrorMsg ln (hexOf (hm secret (st.chain ++ utf8 (dumps (Json.obj rest)))))
        rep (findField rest "sequence")] }, ?_, h32 _ _, ?_, ?_⟩
    · simp only [processLine, hblank, if_neg, hload, hpop, hnn, hc]
      simp
    · intro hcontra; exact absurd hcontra (by simp)
    · intro _; rfl

/-- C1 witness: the theorem applied to a concrete signed record whose
reported hash matches the concrete digest. -/
theorem C1_chain_state_update_witness :
    pyStrip rawSigned ≠ "" ∧
    ∃ st2, processLine hm0 secret0 loadsPy { chain := initialChain, errors := [] } 1 rawSigned =
        Except.ok st2 ∧
      (hm0 secret0 (ScanState.chain { chain := initialChain, errors := [] } ++
        utf8 (dumps (Json.obj [("a", Json.num 1)])))).length = 32 ∧
      (pyEqStr (Json.str zeros64) (hexOf (hm0 secret0
          (ScanState.chain { chain := initialChain, errors := [] } ++
            utf8 (dumps (Json.obj [("a", Json.num 1)]))))) = true →
        st2.chain = hm0 secret0 (ScanState.chain { chain := initialChain, errors := [] } ++
          utf8 (dumps (Json.obj [("a", Json.num 1)]))) ∧
        st2.errors = ScanState.errors { chain := initialChain, errors := [] }) ∧
      (pyEqStr (Json.str zeros64) (hexOf (hm0 secret0
          (ScanState.chain { chain := initialChain, errors := [] } ++
            utf8 (dumps (Json.obj [("a", Json.num 1)]))))) = false →
        st2.chain = ScanState.chain { chain := initialChain, errors := [] }) :=
  ⟨by decide,
    C1_chain_state_update hm0 secret0 loadsPy { chain := initialChain, errors := [] } 1 rawSigned
      [("a", Json.num 1), ("integrity_hash", Json.str zeros64)] [("a", Json.num 1)]
      (Json.str zeros64) (by decide) rfl rfl rfl
      (fun _ _ => List.length_replicate 32 0)⟩

/-- C10: a record whose integrity_hash field is present with the JSON
value null is treated exactly like a legacy record: the step emits no
diagnostic and returns the state unchanged. -/
theorem C10_null_hash_is_legacy (hm : HmacFn) (secret : Bytes) (loads : LoadsFn)
    (st : ScanState) (ln : Nat) (raw : String)
    (fields rest : List (String × Json))
    (hblank : pyStrip raw ≠ "")
    (hload : loads (pyStrip raw) = Except.ok (Json.obj fields))
    (hpop : popField fields "integrity_hash" = (some Json.null, rest)) :
    processLine hm secret loads st ln raw = Except.ok st := by
  simp only [processLine, hblank, if_neg, hload, hpop]
  simp [isNull]

/-- C10 witness: the theorem applied to a concrete record carrying a
null integrity_hash. -/
theorem C10_null_hash_is_legacy_witness :
    pyStrip rawNullHash ≠ "" ∧
    processLine hm0 secret0 loadsPy { chain := initialChain, errors := [] } 1 rawNullHash =
      Except.ok { chain := initialChain, errors := [] } :=
  ⟨by decide,
    C10_null_hash_is_legacy hm0 secret0 loadsPy { chain := initialChain, errors := [] } 1
      rawNullHash [("integrity_hash", Json.null), ("a", Json.num 2)] [("a", Json.num 2)]
      (by decide) rfl rfl⟩

/-- C3: for a record with duplicate-free keys (the dict invariant of a
parsed JSON object), the canonical bytes the code hashes - the UTF-8
encoding of json.dumps applied to the record after popping
integrity_hash - are exactly the bytes the specification describes:
compact JSON of the remaining fields in original insertion order with a
comma between fields and a colon between key and value. -/
theorem C3_canonical_bytes (fields : List (String × Json))
    (hnd : (fields.map Prod.fst).Nodup) :
    utf8 (dumps (Json.obj (popField fields "integrity_hash").2)) =
      spec_canonical_bytes fields := by
  rw [popField_snd_of_nodup fields "integrity_hash" hnd]
  show utf8 ("\x7b" ++ dumpsFields (fields.filter (fun kv => !(kv.1 == "integrity_hash"))) ++ "\x7d") =
    spec_canonical_bytes fields
  rw [dumpsFields_intercalate]
  rfl

/-- C3 witness: the theorem applied to a concrete three-field record. -/
theorem C3_canonical_bytes_witness :
    (([("a", Json.num 1), ("integrity_hash", Json.str zeros64),
        ("b", Json.str "x")] : List (String × Json)).map Prod.fst).Nodup ∧
    utf8 (dumps (Json.obj (popField [("a", Json.num 1),
        ("integrity_hash", Json.str zeros64), ("b", Json.str "x")] "integrity_hash").2)) =
      spec_canonical_bytes [("a", Json.num 1), ("integrity_hash", Json.str zeros64),
        ("b", Json.str "x")] :=
  ⟨by decide,
    C3_canonical_bytes [("a", Json.num 1), ("integrity_hash", Json.str zeros64),
      ("b", Json.str "x")] (by decide)⟩

/-- C4: evaluation of the code at the failing input.  A line holding
valid JSON that is not an object (here a two-element array, which
CPython json.loads parses successfully as a list) makes the script call
pop on a non-dict, raising an uncaught exception that aborts the whole
scan: no ParseError diagnostic is recorded and the following line is
never examined, contradicting the claim that such a line yields one
ParseError and never aborts the scan. -/
theorem C4_nonobject_line_aborts_scan :
    verify_audit_log hm0 secret0 loadsPy "audit.jsonl"
        (fun _ => FileAccess.content [rawArr, rawLegacy]) =
      RunOutcome.crash "uncaught exception: pop called on a non-dict record" := rfl


/-- C2: the hex digest a signed record is checked against is the
lowercase hex encoding of the keyed digest of the current chain state
followed by the canonical bytes; the check succeeds exactly when the
reported string equals it, and for the first record of a file the chain
state used is exactly 32 zero bytes. -/
theorem C2_expected_hash (hm : HmacFn) (secret : Bytes) (loads : LoadsFn)
    (raw : String) (fields rest : List (String × Json)) (s : String)
    (hblank : pyStrip raw ≠ "")
    (hload : loads (pyStrip raw) = Except.ok (Json.obj fields))
    (hpop : popField fields "integrity_hash" = (some (Json.str s), rest)) :
    (∀ st ln, processLine hm secret loads st ln raw =
      (if s = hexOf (hm secret (st.chain ++ utf8 (dumps (Json.obj rest)))) then
        Except.ok { chain := hm secret (st.chain ++ utf8 (dumps (Json.obj rest))),
                    errors := st.errors }
      else
        Except.ok { chain := st.chain, errors := st.errors ++
          [integrityErrorMsg ln
            (hexOf (hm secret (st.chain ++ utf8 (dumps (Json.obj rest)))))
            (Json.str s) (findField rest "sequence")] })) ∧
    (∀ path fs, fs path = FileAccess.content [raw] →
      verify_audit_log hm secret loads path fs =
        (if s = hexOf (hm secret (List.replicate 32 0 ++ utf8 (dumps (Json.obj rest)))) then
          RunOutcome.done true 1 []
        else
          RunOutcome.done false 1
            [integrityErrorMsg 1
              (hexOf (hm secret (List.replicate 32 0 ++ utf8 (dumps (Json.obj rest)))))
              (Json.str s) (findField rest "sequence")])) := by
  have h1 : ∀ st ln, processLine hm secret loads st ln raw =
      (if s = hexOf (hm secret (st.chain ++ utf8 (dumps (Json.obj rest)))) then
        Except.ok { chain := hm secret (st.chain ++ utf8 (dumps (Json.obj rest))),
                    errors := st.errors }
      else
        Except.ok { chain := st.chain, errors := st.errors ++
          [integrityErrorMsg ln
            (hexOf (hm secret (st.chain ++ utf8 (dumps (Json.obj rest)))))
            (Json.str s) (findField rest "sequence")] }) := by
    intro st ln
    by_cases hc : s = hexOf (hm secret (st.chain ++ utf8 (dumps (Json.obj rest))))
    · simp only [processLine, hblank, if_neg, hload, hpop, hc]
      simp [pyEqStr, isNull]
    · simp only [processLine, hblank, if_neg, hload, hpop]
      simp [pyEqStr, isNull, hc]
  refine ⟨h1, ?_⟩
  intro path fs hfs
  simp only [verify_audit_log, hfs, runLines, Nat.zero_add]
  rw [h1 { chain := initialChain, errors := [] } 1]
  rw [show ScanState.chain { chain := initialChain, errors := [] } = List.replicate 32 0 from rfl]
  by_cases hc : s = hexOf (hm secret (List.replicate 32 0 ++ utf8 (dumps (Json.obj rest))))
  · rw [if_pos hc, if_pos hc]
    rfl
  · rw [if_neg hc, if_neg hc]
    rfl

/-- C2 witness: the theorem applied to a one-record file whose reported
hash equals the concrete zero-key digest. -/
theorem C2_expected_hash_witness :
    pyStrip rawSigned ≠ "" ∧
    verify_audit_log hm0 secret0 loadsPy "audit.jsonl" (fun _ => FileAccess.content [rawSigned]) =
      (if zeros64 = hexOf (hm0 secret0 (List.replicate 32 0 ++
          utf8 (dumps (Json.obj [("a", Json.num 1)])))) then
        RunOutcome.done true 1 []
      else
        RunOutcome.done false 1
          [integrityErrorMsg 1
            (hexOf (hm0 secret0 (List.replicate 32 0 ++
              utf8 (dumps (Json.obj [("a", Json.num 1)])))))
            (Json.str zeros64) (findField [("a", Json.num 1)] "sequence")]) :=
  ⟨by decide,
    (C2_expected_hash hm0 secret0 loadsPy rawSigned
      [("a", Json.num 1), ("integrity_hash", Json.str zeros64)] [("a", Json.num 1)]
      zeros64 (by decide) rfl rfl).2 "audit.jsonl" (fun _ => FileAccess.content [rawSigned]) rfl⟩

/-- C6: a parsed record with no integrity_hash field is skipped with no
diagnostic and no change to the chain state, and a file consisting only
of such legacy records is reported valid (with the total equal to the
line count and an empty diagnostic list), no integrity check having
been performed. -/
theorem C6_legacy_records (hm : HmacFn) (secret : Bytes) (loads : LoadsFn) :
    (∀ st ln raw fields, pyStrip raw ≠ "" →
      loads (pyStrip raw) = Except.ok (Json.obj fields) →
      findField fields "integrity_hash" = none →
      processLine hm secret loads st ln raw = Except.ok st) ∧
    (∀ path fs ls, fs path = FileAccess.content ls →
      (∀ l ∈ ls, pyStrip l ≠ "" ∧ ∃ fields,
        loads (pyStrip l) = Except.ok (Json.obj fields) ∧
        findField fields "integrity_hash" = none) →
      verify_audit_log hm secret loads path fs = RunOutcome.done true ls.length []) := by
  have hstep : ∀ st ln raw fields, pyStrip raw ≠ "" →
      loads (pyStrip raw) = Except.ok (Json.obj fields) →
      findField fields "integrity_hash" = none →
      processLine hm secret loads st ln raw = Except.ok st := by
    intro st ln raw fields hb hl hf
    have hp : (popField fields "integrity_hash").1 = none :=
      (popField_fst_none_iff fields "integrity_hash").mpr hf
    simp only [processLine, hb, if_neg, hl, hp]
    simp
  have hrun : ∀ ls : List String,
      (∀ l ∈ ls, pyStrip l ≠ "" ∧ ∃ fields,
        loads (pyStrip l) = Except.ok (Json.obj fields) ∧
        findField fields "integrity_hash" = none) →
      ∀ st ln, runLines hm secret loads st ln ls = Except.ok (st, ln + ls.length) := by
    intro ls
    induction ls with
    | nil => intro _ st ln; simp [runLines]
    | cons l rest ih =>
      intro hall st ln
      obtain ⟨hb, fields, hl, hf⟩ := hall l (List.mem_cons_self l rest)
      simp only [runLines, hstep st (ln + 1) l fields hb hl hf]
      rw [ih (fun x hx => hall x (List.mem_cons_of_mem l hx)) st (ln + 1)]
      simp only [Except.ok.injEq, Prod.mk.injEq, List.length_cons, true_and]
      omega
  refine ⟨hstep, ?_⟩
  intro path fs ls hfs hall
  simp only [verify_audit_log, hfs]
  rw [hrun ls hall { chain := initialChain, errors := [] } 0]
  simp

/-- C6 witness: the theorem applied to a one-line legacy-only file. -/
theorem C6_legacy_records_witness :
    verify_audit_log hm0 secret0 loadsPy "audit.jsonl" (fun _ => FileAccess.content [rawLegacy]) =
      RunOutcome.done true 1 [] := by
  have h := (C6_legacy_records hm0 secret0 loadsPy).2 "audit.jsonl"
    (fun _ => FileAccess.content [rawLegacy]) [rawLegacy] rfl ?_
  · exact h
  · intro l hl
    simp only [List.mem_singleton] at hl
    subst hl
    exact ⟨by decide, [("a", Json.num 1)], rfl, rfl⟩

/-- C9 (amended): the total reported by the scan is the number of
physical lines of the file, blank and malformed lines included, not the
number of audit records. -/
theorem C9_total_is_line_count (hm : HmacFn) (secret : Bytes) (loads : LoadsFn)
    (path : String) (fs : String → FileAccess) (ls : List String)
    (v : Bool) (n : Nat) (errs : List String)
    (hfs : fs path = FileAccess.content ls)
    (hdone : verify_audit_log hm secret loads path fs = RunOutcome.done v n errs) :
    n = ls.length := by
  simp only [verify_audit_log, hfs] at hdone
  cases hrl : runLines hm secret loads { chain := initialChain, errors := [] } 0 ls with
  | error e => rw [hrl] at hdone; exact absurd hdone (by simp)
  | ok p =>
    obtain ⟨st, k⟩ := p
    rw [hrl] at hdone
    injection hdone with h1 h2 h3
    have := runLines_count hm secret loads ls _ 0 st k hrl
    omega

/-- C9 witness: the theorem applied to a concrete one-line file. -/
theorem C9_total_is_line_count_witness :
    verify_audit_log hm0 secret0 loadsPy "audit.jsonl" (fun _ => FileAccess.content [" "]) =
      RunOutcome.done true 1 [] ∧ (1 : Nat) = [" "].length :=
  ⟨rfl, C9_total_is_line_count hm0 secret0 loadsPy "audit.jsonl"
    (fun _ => FileAccess.content [" "]) [" "] true 1 [] rfl rfl⟩

/-- C9 counterexample: a file whose only line is whitespace-only holds
zero audit records, yet the scan reports a total of 1 (the physical
line count), and the emitted status renders that same number, so the
reported total is not the number of audit records. -/
theorem C9_counterexample_blank_line_counted :
    pyStrip " " = "" ∧
    verify_audit_log hm0 secret0 loadsPy "audit.jsonl" (fun _ => FileAccess.content [" "]) =
      RunOutcome.done true 1 [] ∧
    (main ["verify_audit.py", "audit.jsonl"] (some "k") (fun _ => FileAccess.content [" "])
        hm0 loadsPy).out.contains
      (Chan.stdout, "[PASS] All 1 audit records verified") = true :=
  ⟨rfl, rfl, rfl⟩


/-- C5: the scan result is valid exactly when the accumulated
diagnostic list is empty at end of file, and the process exit code is 0
exactly when the result is valid: 1 on an invalid result, on a missing
or empty secret, on a missing file, on an unreadable file, on an
uncaught exception, and on a missing command-line argument. -/
theorem C5_validity_and_exit_codes (hm : HmacFn) (loads : LoadsFn)
    (fs : String → FileAccess) (env : Option String)
    (a0 path : String) (rest : List String) :
    (∀ secret v n errs, load_secret env = Except.ok secret →
      verify_audit_log hm secret loads path fs = RunOutcome.done v n errs →
      ((v = true ↔ errs = []) ∧
        (main (a0 :: path :: rest) env fs hm loads).exit = if v then 0 else 1)) ∧
    (∀ msgs, load_secret env = Except.error msgs →
      (main (a0 :: path :: rest) env fs hm loads).exit = 1) ∧
    (∀ secret, load_secret env = Except.ok secret → fs path = FileAccess.missing →
      (main (a0 :: path :: rest) env fs hm loads).exit = 1) ∧
    (∀ secret e, load_secret env = Except.ok secret →
      fs path = FileAccess.unreadable e →
      (main (a0 :: path :: rest) env fs hm loads).exit = 1) ∧
    (∀ secret m, load_secret env = Except.ok secret →
      verify_audit_log hm secret loads path fs = RunOutcome.crash m →
      (main (a0 :: path :: rest) env fs hm loads).exit = 1) ∧
    (main [a0] env fs hm loads).exit = 1 := by
  refine ⟨?_, ?_, ?_, ?_, ?_, ?_⟩
  · intro secret v n errs hsec hdone
    constructor
    · simp only [verify_audit_log] at hdone
      cases hfp : fs path with
      | missing =>
        simp only [hfp] at hdone
        exact absurd hdone (by simp)
      | unreadable e =>
        simp only [hfp] at hdone
        exact absurd hdone (by simp)
      | content ls =>
        simp only [hfp] at hdone
        cases hrl : runLines hm secret loads { chain := initialChain, errors := [] } 0 ls with
        | error e =>
          simp only [hrl] at hdone
          exact absurd hdone (by simp)
        | ok p =>
          obtain ⟨st, k⟩ := p
          simp only [hrl] at hdone
          injection hdone with h1 h2 h3
          rw [← h1, ← h3]
          simp
    · simp [main, hsec, hdone]
  · intro msgs hsec
    simp [main, hsec]
  · intro secret hsec hfp
    simp [main, hsec, verify_audit_log, hfp]
  · intro secret e hsec hfp
    simp [main, hsec, verify_audit_log, hfp]
  · intro secret m hsec hcrash
    simp [main, hsec, hcrash]
  · simp [main]

/-- C5 witness: the theorem applied to a concrete valid run yields exit
code 0. -/
theorem C5_validity_and_exit_codes_witness :
    (main ["verify_audit.py", "audit.jsonl"] (some "k") (fun _ => FileAccess.content [rawLegacy])
      hm0 loadsPy).exit = if true then 0 else 1 :=
  ((C5_validity_and_exit_codes hm0 loadsPy (fun _ => FileAccess.content [rawLegacy]) (some "k")
    "verify_audit.py" "audit.jsonl" []).1 (utf8 "k") true 1 [] rfl rfl).2

/-- C8 (amended): an unset or empty secret makes the program print the
error to standard output and exit 1 before any file access (the result
does not depend on the filesystem and no diagnostic list is produced);
a missing file makes it print the error to standard output and exit 1,
bypassing the report; and an unreadable file (an IOError while opening
or reading) likewise makes it print the error to standard output and
exit 1, bypassing the report.  In every case no diagnostic list is
produced. -/
theorem C8_precondition_errors (hm : HmacFn) (loads : LoadsFn)
    (fs : String → FileAccess) (env : Option String)
    (a0 path : String) (r : List String) :
    ((env = none ∨ env = some "") →
      main (a0 :: path :: r) env fs hm loads =
        { exit := 1, out := stdoutAll
            ["ERROR: ORBIT_AUDIT_SECRET environment variable not set",
             "Set it with: export ORBIT_AUDIT_SECRET=\x27your_secret_key\x27"] }) ∧
    (∀ secret, load_secret env = Except.ok secret → fs path = FileAccess.missing →
      main (a0 :: path :: r) env fs hm loads =
        { exit := 1, out := stdoutAll
            ["Validating audit log: " ++ path, "",
             "ERROR: File not found: " ++ path] }) ∧
    (∀ secret e, load_secret env = Except.ok secret →
      fs path = FileAccess.unreadable e →
      main (a0 :: path :: r) env fs hm loads =
        { exit := 1, out := stdoutAll
            ["Validating audit log: " ++ path, "",
             "ERROR: Failed to read file: " ++ e] }) := by
  refine ⟨?_, ?_, ?_⟩
  · rintro (rfl | rfl) <;> rfl
  · intro secret hsec hfp
    simp [main, hsec, verify_audit_log, hfp, stdoutAll]
  · intro secret e hsec hfp
    simp [main, hsec, verify_audit_log, hfp, stdoutAll]

/-- C8 witness: the theorem applied at a concrete unset environment and
at a concrete unreadable file. -/
theorem C8_precondition_errors_witness :
    (main ["verify_audit.py", "audit.jsonl"] none (fun _ => FileAccess.content []) hm0 loadsPy =
      { exit := 1, out := stdoutAll
          ["ERROR: ORBIT_AUDIT_SECRET environment variable not set",
           "Set it with: export ORBIT_AUDIT_SECRET=\x27your_secret_key\x27"] }) ∧
    (main ["verify_audit.py", "audit.jsonl"] (some "k")
        (fun _ => FileAccess.unreadable "Input/output error") hm0 loadsPy =
      { exit := 1, out := stdoutAll
          ["Validating audit log: audit.jsonl", "",
           "ERROR: Failed to read file: Input/output error"] }) :=
  ⟨(C8_precondition_errors hm0 loadsPy (fun _ => FileAccess.content []) none
      "verify_audit.py" "audit.jsonl" []).1 (Or.inl rfl),
    (C8_precondition_errors hm0 loadsPy (fun _ => FileAccess.unreadable "Input/output error")
      (some "k") "verify_audit.py" "audit.jsonl" []).2.2 (utf8 "k") "Input/output error"
      rfl rfl⟩

/-- C8 counterexample: with the secret unset the error report appears
on the standard output stream, with nothing written to the error
stream, contradicting the claim that precondition errors are reported
on the error stream. -/
theorem C8_counterexample_error_on_stdout :
    main ["verify_audit.py", "audit.jsonl"] none (fun _ => FileAccess.content []) hm0 loadsPy =
      { exit := 1, out :=
          [(Chan.stdout, "ERROR: ORBIT_AUDIT_SECRET environment variable not set"),
           (Chan.stdout, "Set it with: export ORBIT_AUDIT_SECRET=\x27your_secret_key\x27")] } := rfl


/-- C7: whitespace-only lines are silently skipped (no diagnostic, no
chain-state change); every diagnostic a step emits is labelled with the
physical 1-indexed line number the loop passed for its source line; and
inserting a blank line anywhere into a file that verifies as valid
leaves the outcome valid with an empty diagnostic list, the line total
growing by exactly the inserted line. -/
theorem C7_blank_line_tolerance (hm : HmacFn) (secret : Bytes) (loads : LoadsFn) :
    (∀ st ln raw, pyStrip raw = "" →
      processLine hm secret loads st ln raw = Except.ok st) ∧
    (∀ st ln raw st2, processLine hm secret loads st ln raw = Except.ok st2 →
      st2.errors = st.errors ∨
        ∃ t, st2.errors = st.errors ++ ["Line " ++ toString ln ++ ": " ++ t]) ∧
    (∀ path fs l1 l2 b n, fs path = FileAccess.content (l1 ++ l2) → pyStrip b = "" →
      verify_audit_log hm secret loads path fs = RunOutcome.done true n [] →
      ∀ path2 fs2, fs2 path2 = FileAccess.content (l1 ++ b :: l2) →
        verify_audit_log hm secret loads path2 fs2 = RunOutcome.done true (n + 1) []) := by
  refine ⟨fun st ln raw h => processLine_blank hm secret loads st ln raw h,
    fun st ln raw st2 h => processLine_shape hm secret loads st ln raw st2 h, ?_⟩
  intro path fs l1 l2 b n hfs hb hval path2 fs2 hfs2
  simp only [verify_audit_log, hfs] at hval
  cases hrl : runLines hm secret loads { chain := initialChain, errors := [] } 0 (l1 ++ l2) with
  | error e =>
    simp only [hrl] at hval
    exact absurd hval (by simp)
  | ok p =>
    obtain ⟨st, k⟩ := p
    simp only [hrl] at hval
    injection hval with h1 h2 h3
    rw [runLines_append] at hrl
    cases hr1 : runLines hm secret loads { chain := initialChain, errors := [] } 0 l1 with
    | error e =>
      rw [hr1] at hrl
      exact absurd hrl (by simp)
    | ok q =>
      obtain ⟨stM, n1⟩ := q
      rw [hr1] at hrl
      have hn1 : n1 = l1.length := by
        have := runLines_count hm secret loads l1 _ 0 stM n1 hr1
        omega
      have hk : k = n1 + l2.length :=
        runLines_count hm secret loads l2 stM n1 st k hrl
      have hstM : stM.errors = [] := by
        obtain ⟨s2, hs2⟩ := runLines_errors_mono hm secret loads l2 stM n1 st k hrl
        rw [h3] at hs2
        exact (List.append_eq_nil.mp hs2.symm).1
      simp only [verify_audit_log, hfs2]
      rw [runLines_append, hr1]
      show (match runLines hm secret loads stM n1 (b :: l2) with
        | Except.error m => RunOutcome.crash m
        | Except.ok (st, n) => RunOutcome.done st.errors.isEmpty n st.errors) =
        RunOutcome.done true (n + 1) []
      simp only [runLines, processLine_blank hm secret loads stM (n1 + 1) b hb]
      rw [runLines_ln_irrel hm secret loads l2 stM n1 st k hrl
        (by rw [h3, hstM]) (n1 + 1)]
      show RunOutcome.done st.errors.isEmpty (n1 + 1 + l2.length) st.errors =
        RunOutcome.done true (n + 1) []
      rw [h3]
      simp only [List.isEmpty_nil]
      have harith : n1 + 1 + l2.length = n + 1 := by omega
      rw [harith]

/-- C7 witness: the theorem applied to a concrete valid file with a
blank line inserted between its two records. -/
theorem C7_blank_line_tolerance_witness :
    verify_audit_log hm0 secret0 loadsPy "audit2.jsonl"
        (fun _ => FileAccess.content ([rawSigned] ++ " " :: [rawLegacy])) =
      RunOutcome.done true (2 + 1) [] :=
  (C7_blank_line_tolerance hm0 secret0 loadsPy).2.2 "audit.jsonl"
    (fun _ => FileAccess.content ([rawSigned] ++ [rawLegacy])) [rawSigned] [rawLegacy] " " 2
    rfl rfl rfl "audit2.jsonl" (fun _ => FileAccess.content ([rawSigned] ++ " " :: [rawLegacy])) rfl

end OrbitAudit
